import Mathlib

/-!
Verification of the annotator CLI tool (src/main.py) against its
natural-language specification.

The embedding models the Python module shallowly:
 - the file system is a partial map from file names to decoded text content;
 - Python dataclass `Annotation` becomes the structure `Annot`
   (the shorter name is used throughout for the same record);
 - `file.readlines()` becomes `readlines` (split keeping terminators);
 - the slice `lines[start_line - 1 : end_line]` becomes `pySlice`
   with CPython's index normalisation, including negative indices;
 - `hashlib.md5(...).hexdigest()` becomes `md5Hex`, a complete MD5
   implementation over `Nat` with explicit reduction modulo 2^32;
 - `json.dump([asdict(item) ...])` / `[Annotation(**data) ...]` become
   `saveStore` / `loadStore` over a JSON-value representation.
-/

/-- File system model: maps a path to the text content of the file when it
exists (`os.path.exists` is `(fs p).isSome`; `open(p).readlines()` reads
the mapped content). -/
def FS : Type := String → Option String

/-- Model of the Python dataclass with fields start_line, end_line,
file_name, line_hash (declared in this order in src/main.py lines 10-15). -/
structure Annot where
  start_line : Int
  end_line : Int
  file_name : String
  line_hash : String
deriving DecidableEq

instance : Inhabited Annot := ⟨⟨0, 0, "", ""⟩⟩

/-- Python readlines on text content: split after each newline character,
keeping the terminator; a final segment without terminator is kept too. -/
def readlinesAux : List Char → List Char → List String
  | [], [] => []
  | [], acc => [String.mk acc.reverse]
  | c :: rest, acc =>
    if c = '\n' then String.mk (c :: acc).reverse :: readlinesAux rest []
    else readlinesAux rest (c :: acc)

/-- Model of `file.readlines()` over the file's text content. -/
def readlines (s : String) : List String :=
  readlinesAux s.data []

/-- CPython normalisation of one slice bound for a list of length n:
negative indices count from the end, then the bound is clamped to [0, n]. -/
def pyIndex (n : Nat) (i : Int) : Nat :=
  if i < 0 then (max ((n : Int) + i) 0).toNat else min i.toNat n

/-- Model of the Python slice `xs[a : b]` (step 1). -/
def pySlice {α : Type} (xs : List α) (a b : Int) : List α :=
  (xs.take (pyIndex xs.length b)).drop (pyIndex xs.length a)

/-! MD5 (RFC 1321), over `Nat` with explicit `% 2^32`. This models
`hashlib.md5(data).hexdigest()`: lowercase hexadecimal of the 16-byte
digest. Bytes are `Nat` values below 256. -/

/-- Modulus for 32-bit words. -/
def M32 : Nat := 4294967296

/-- Left-rotation of a 32-bit word by c bits (0 < c < 32). -/
def rotl32 (x c : Nat) : Nat :=
  (x % 2 ^ (32 - c)) * 2 ^ c + x / 2 ^ (32 - c)

/-- MD5 round constants K[0..63]. -/
def md5K : List Nat :=
  [0xd76aa478, 0xe8c7b756, 0x242070db, 0xc1bdceee,
   0xf57c0faf, 0x4787c62a, 0xa8304613, 0xfd469501,
   0x698098d8, 0x8b44f7af, 0xffff5bb1, 0x895cd7be,
   0x6b901122, 0xfd987193, 0xa679438e, 0x49b40821,
   0xf61e2562, 0xc040b340, 0x265e5a51, 0xe9b6c7aa,
   0xd62f105d, 0x02441453, 0xd8a1e681, 0xe7d3fbc8,
   0x21e1cde6, 0xc33707d6, 0xf4d50d87, 0x455a14ed,
   0xa9e3e905, 0xfcefa3f8, 0x676f02d9, 0x8d2a4c8a,
   0xfffa3942, 0x8771f681, 0x6d9d6122, 0xfde5380c,
   0xa4beea44, 0x4bdecfa9, 0xf6bb4b60, 0xbebfbc70,
   0x289b7ec6, 0xeaa127fa, 0xd4ef3085, 0x04881d05,
   0xd9d4d039, 0xe6db99e5, 0x1fa27cf8, 0xc4ac5665,
   0xf4292244, 0x432aff97, 0xab9423a7, 0xfc93a039,
   0x655b59c3, 0x8f0ccc92, 0xffeff47d, 0x85845dd1,
   0x6fa87e4f, 0xfe2ce6e0, 0xa3014314, 0x4e0811a1,
   0xf7537e82, 0xbd3af235, 0x2ad7d2bb, 0xeb86d391]

/-- MD5 per-round shift amounts s[0..63]. -/
def md5S : List Nat :=
  [7, 12, 17, 22, 7, 12, 17, 22, 7, 12, 17, 22, 7, 12, 17, 22,
   5, 9, 14, 20, 5, 9, 14, 20, 5, 9, 14, 20, 5, 9, 14, 20,
   4, 11, 16, 23, 4, 11, 16, 23, 4, 11, 16, 23, 4, 11, 16, 23,
   6, 10, 15, 21, 6, 10, 15, 21, 6, 10, 15, 21, 6, 10, 15, 21]

/-- Little-endian interpretation of a byte list as a number. -/
def leBytesToNat : List Nat → Nat
  | [] => 0
  | b :: rest => b + 256 * leBytesToNat rest

/-- The k low-order bytes of a number, little-endian. -/
def natToLeBytes : Nat → Nat → List Nat
  | 0, _ => []
  | k + 1, v => v % 256 :: natToLeBytes k (v / 256)

/-- One MD5 round: m is the 16-word message block, state is (A, B, C, D). -/
def md5Round (m : List Nat) (st : Nat × Nat × Nat × Nat) (i : Nat) :
    Nat × Nat × Nat × Nat :=
  match st with
  | (a, b, c, d) =>
    let fg : Nat × Nat :=
      if i < 16 then ((b &&& c) ||| ((b ^^^ 0xffffffff) &&& d), i)
      else if i < 32 then
        ((d &&& b) ||| ((d ^^^ 0xffffffff) &&& c), (5 * i + 1) % 16)
      else if i < 48 then (b ^^^ c ^^^ d, (3 * i + 5) % 16)
      else (c ^^^ (b ||| (d ^^^ 0xffffffff)), (7 * i) % 16)
    let f := (fg.1 + a + md5K.getD i 0 + m.getD fg.2 0) % M32
    (d, (b + rotl32 f (md5S.getD i 0)) % M32, b, c)

/-- Process one 64-byte chunk, updating the running state. -/
def md5Chunk (st : Nat × Nat × Nat × Nat) (chunk : List Nat) :
    Nat × Nat × Nat × Nat :=
  let m := (List.range 16).map (fun i => leBytesToNat ((chunk.drop (4 * i)).take 4))
  match st, (List.range 64).foldl (md5Round m) st with
  | (a0, b0, c0, d0), (a, b, c, d) =>
    ((a0 + a) % M32, (b0 + b) % M32, (c0 + c) % M32, (d0 + d) % M32)

/-- Split a list into chunks of 64, with fuel for termination. -/
def chunksAux : Nat → List Nat → List (List Nat)
  | 0, _ => []
  | _ + 1, [] => []
  | fuel + 1, l => l.take 64 :: chunksAux fuel (l.drop 64)

/-- MD5 padding: append 0x80, zero bytes to 56 mod 64, then the 64-bit
little-endian bit length. -/
def md5Pad (msg : List Nat) : List Nat :=
  msg ++ 0x80 :: List.replicate ((64 + 56 - (msg.length + 1) % 64) % 64) 0
      ++ natToLeBytes 8 (msg.length * 8)

/-- The 16-byte MD5 digest of a byte list. -/
def md5Bytes (msg : List Nat) : List Nat :=
  let padded := md5Pad msg
  match (chunksAux padded.length padded).foldl md5Chunk
      (0x67452301, 0xefcdab89, 0x98badcfe, 0x10325476) with
  | (a, b, c, d) =>
    natToLeBytes 4 a ++ natToLeBytes 4 b ++ natToLeBytes 4 c ++ natToLeBytes 4 d

/-- Lowercase hexadecimal digit characters, as hexdigest renders them. -/
def hexDigits : List Char :=
  String.data "0123456789abcdef"

/-- Two lowercase hex characters for one byte. -/
def byteToHex (b : Nat) : List Char :=
  [hexDigits.getD (b / 16) '0', hexDigits.getD (b % 16) '0']

/-- Render a byte list as a lowercase hexadecimal string. -/
def bytesToHex (bs : List Nat) : String :=
  String.mk (bs.flatMap byteToHex)

/-- Model of `hashlib.md5(bytes).hexdigest()`. -/
def md5Hex (msg : List Nat) : String :=
  bytesToHex (md5Bytes msg)

/-- UTF-8 encoding of one character (models Python str.encode per char). -/
def encodeChar (c : Char) : List Nat :=
  let n := c.toNat
  if n < 0x80 then [n]
  else if n < 0x800 then [0xc0 + n / 64, 0x80 + n % 64]
  else if n < 0x10000 then
    [0xe0 + n / 4096, 0x80 + n / 64 % 64, 0x80 + n % 64]
  else
    [0xf0 + n / 262144, 0x80 + n / 4096 % 64, 0x80 + n / 64 % 64, 0x80 + n % 64]

/-- Model of Python `s.encode()` (UTF-8 bytes of a string). -/
def utf8Bytes (s : String) : List Nat :=
  s.data.flatMap encodeChar

/-- The line slice taken by check_annotations line 87 and regen_hashes
line 108: `file.readlines()[start_line - 1 : end_line]`. -/
def sliceLines (content : String) (startLine endLine : Int) : List String :=
  pySlice (readlines content) (startLine - 1) endLine

/-- The digest both operations compute over the slice (src/main.py lines
87-88 and 108-109): `hashlib.md5("".join(lines).encode()).hexdigest()`.
The spec calls this hash_range(file_path, start_line, end_line). -/
def hash_range (content : String) (startLine endLine : Int) : String :=
  md5Hex (utf8Bytes (String.join (sliceLines content startLine endLine)))

/-- The warning printed by both check and regen when an annotated file does
not exist (src/main.py lines 83 and 104). -/
def missingMsg (name : String) : String :=
  "Error: The file " ++ name ++ " does not exist."

/-- The warning printed by check on a digest mismatch (src/main.py
lines 91-93). -/
def mismatchMsg (a : Annot) : String :=
  "Error: The hash for lines " ++ toString a.start_line ++ "-"
    ++ toString a.end_line ++ " in " ++ a.file_name ++ " does not match."

/-- Model of the loop body of check_annotations (src/main.py lines 81-93):
the returned list is the sequence of lines the loop prints, in order.
A missing file yields its warning and the loop continues; an existing file
yields a warning exactly when the recomputed digest differs. -/
def checkAnnots (fs : FS) : List Annot → List String
  | [] => []
  | a :: rest =>
    match fs a.file_name with
    | none => missingMsg a.file_name :: checkAnnots fs rest
    | some content =>
      if hash_range content a.start_line a.end_line ≠ a.line_hash then
        mismatchMsg a :: checkAnnots fs rest
      else
        checkAnnots fs rest

/-- One iteration of the regen_hashes loop (src/main.py lines 102-109):
the printed warnings and the possibly-updated record. A missing file leaves
the record untouched; otherwise line_hash is overwritten in place. -/
def regenStep (fs : FS) (a : Annot) : List String × Annot :=
  match fs a.file_name with
  | none => ([missingMsg a.file_name], a)
  | some content =>
    ([], { a with line_hash := hash_range content a.start_line a.end_line })

/-- The store contents after the regen_hashes loop. -/
def regenHashes (fs : FS) (l : List Annot) : List Annot :=
  l.map (fun a => (regenStep fs a).2)

/-- The lines printed by the regen_hashes loop, in order. -/
def regenOutput (fs : FS) (l : List Annot) : List String :=
  l.flatMap (fun a => (regenStep fs a).1)

/-! The store file. `json.dump([asdict(item) for item in annotations], ...)`
writes a JSON array of objects whose values here are ints or strings;
`[Annotation(**data) for data in json.load(file)]` rebuilds the records.
We model the store file at the JSON-value level: a list of key-value
dictionaries. -/

/-- JSON scalar values appearing in the store file. -/
inductive JVal where
  | jint : Int → JVal
  | jstr : String → JVal
deriving DecidableEq

/-- A JSON object as an ordered key-value list. -/
def JDict : Type := List (String × JVal)

/-- Model of `dataclasses.asdict` on the record: keys in dataclass field
declaration order. -/
def Annot.asdict (a : Annot) : JDict :=
  [("start_line", JVal.jint a.start_line), ("end_line", JVal.jint a.end_line),
   ("file_name", JVal.jstr a.file_name), ("line_hash", JVal.jstr a.line_hash)]

/-- Look up an integer value under a key. -/
def getIntKey (d : JDict) (k : String) : Option Int :=
  match List.lookup k d with
  | some (JVal.jint n) => some n
  | _ => none

/-- Look up a string value under a key. -/
def getStrKey (d : JDict) (k : String) : Option String :=
  match List.lookup k d with
  | some (JVal.jstr s) => some s
  | _ => none

/-- Model of `Annotation(**data)`: keyword construction from a dict.
It succeeds exactly when the four declared fields are present with the
expected kinds and no extra key is given (extra or missing keywords raise
TypeError in Python, modelled as `none`). -/
def annotOfDict (d : JDict) : Option Annot :=
  if List.length d = 4 then
    match getIntKey d "start_line", getIntKey d "end_line",
        getStrKey d "file_name", getStrKey d "line_hash" with
    | some s, some e, some f, some h => some ⟨s, e, f, h⟩
    | _, _, _, _ => none
  else none

/-- Model of the save path (src/main.py lines 111-112): the store file
holds the asdict of every record, in order. -/
def saveStore (l : List Annot) : List JDict :=
  l.map Annot.asdict

/-- Model of read_annotations (src/main.py lines 18-21): rebuild each
record from its dict, failing on the first malformed element. -/
def loadStore : List JDict → Option (List Annot)
  | [] => some []
  | d :: rest =>
    match annotOfDict d, loadStore rest with
    | some a, some l => some (a :: l)
    | _, _ => none

/-- Model of the whole regen_hashes operation on the store file
(src/main.py lines 96-114): read the store, recompute hashes against the
file system, write the whole store back. `none` models the fatal path. -/
def regenStoreFile (fs : FS) (store : List JDict) : Option (List JDict) :=
  match loadStore store with
  | none => none
  | some l => some (saveStore (regenHashes fs l))

/-! Module-level name resolution (claim C10). Evaluating the module
executes its top-level statements in order; a decorator application
requires its name to be bound already. src/main.py line 6 imports only
`asdict` from dataclasses, yet line 10 applies `@dataclass`. -/

/-- A top-level statement, as far as name binding is concerned: either it
binds names (imports, def), or it is a class definition applying a
decorator whose name must already be bound. -/
inductive PyStmt where
  | bind : List String → PyStmt
  | decoratedClass : String → String → PyStmt

/-- The top-level statements of src/main.py in source order: five module
imports, `from dataclasses import asdict`, `from typing import List`, the
decorated class, then the function definitions. -/
def moduleStmts : List PyStmt :=
  [PyStmt.bind ["os"], PyStmt.bind ["sys"], PyStmt.bind ["argparse"],
   PyStmt.bind ["json"], PyStmt.bind ["hashlib"],
   PyStmt.bind ["asdict"], PyStmt.bind ["List"],
   PyStmt.decoratedClass "dataclass" "Annotation",
   PyStmt.bind ["read_annotations"], PyStmt.bind ["count_annotations"],
   PyStmt.bind ["average_annotation_length"], PyStmt.bind ["print_stats"],
   PyStmt.bind ["add_annotation"], PyStmt.bind ["check_annotations"],
   PyStmt.bind ["regen_hashes"], PyStmt.bind ["main"]]

/-- Evaluate the module statements with an environment of bound names:
stops with a NameError at the first decorator whose name is unbound. -/
def runModule : List PyStmt → List String → Except String (List String)
  | [], env => Except.ok env
  | PyStmt.bind ns :: rest, env => runModule rest (env ++ ns)
  | PyStmt.decoratedClass deco cls :: rest, env =>
    if deco ∈ env then runModule rest (env ++ [cls])
    else Except.error ("NameError: name " ++ deco ++ " is not defined")

/-- Model of average_annotation_length (src/main.py lines 28-34), with
Python's exact int arithmetic and true division modelled in ℚ. -/
def totalSpan (l : List Annot) : Int :=
  (l.map (fun a => a.end_line - a.start_line + 1)).sum

def averageAnnotLength (l : List Annot) : ℚ :=
  if l = [] then 0
  else (totalSpan l : ℚ) / (l.length : ℚ)

/-- Default record used with List.getD in index-wise statements. -/
def annZero : Annot := ⟨0, 0, "", ""⟩

/-- The file system of the spec's worked scenario: a.txt holds two lines. -/
def fsDemo : FS := fun n => if n = "a.txt" then some "foo\nbar\n" else none

/-! Helper lemmas shared between the claims. -/

theorem annotOfDict_asdict (a : Annot) : annotOfDict (Annot.asdict a) = some a := by
  cases a
  rfl

theorem loadStore_saveStore (l : List Annot) : loadStore (saveStore l) = some l := by
  induction l with
  | nil => rfl
  | cons a rest ih =>
    simp [saveStore] at ih ⊢
    simp [loadStore, annotOfDict_asdict, ih]

theorem regenStep_none (fs : FS) (a : Annot) (h : fs a.file_name = none) :
    regenStep fs a = ([missingMsg a.file_name], a) := by
  unfold regenStep
  rw [h]

theorem regenStep_some (fs : FS) (a : Annot) (c : String)
    (h : fs a.file_name = some c) :
    regenStep fs a
      = ([], { a with line_hash := hash_range c a.start_line a.end_line }) := by
  unfold regenStep
  rw [h]

theorem regenStep_twice (fs : FS) (a : Annot) :
    regenStep fs (regenStep fs a).2 = regenStep fs a := by
  cases h : fs a.file_name <;> simp [regenStep, h]

theorem regenHashes_twice (fs : FS) (l : List Annot) :
    regenHashes fs (regenHashes fs l) = regenHashes fs l := by
  simp only [regenHashes, List.map_map]
  apply List.map_congr_left
  intro a _
  simp [Function.comp, regenStep_twice]

theorem getD_map (f : Annot → Annot) (l : List Annot) (i : Nat)
    (h : i < l.length) : (l.map f).getD i annZero = f (l.getD i annZero) := by
  rw [List.getD_eq_getElem _ _ (by simpa using h), List.getD_eq_getElem _ _ h]
  simp

theorem castSpanSum (l : List Annot) :
    ((totalSpan l : Int) : ℚ)
      = (l.map (fun a => ((a.end_line : ℚ) - (a.start_line : ℚ) + 1))).sum := by
  induction l with
  | nil => simp [totalSpan]
  | cons a t ih =>
    have h1 : totalSpan (a :: t) = (a.end_line - a.start_line + 1) + totalSpan t := by
      simp [totalSpan]
    rw [h1]
    push_cast
    rw [ih]
    simp [List.map_cons, List.sum_cons]

/-- C3: saving a sequence of records to the store and loading it back
yields the same sequence, field-for-field and in order. -/
theorem c3_round_trip (l : List Annot) : loadStore (saveStore l) = some l :=
  loadStore_saveStore l

/-- C1: regen is idempotent. Recomputing hashes twice against the same
file system gives the same records as once, and running the whole
store-file operation on the output of a successful run reproduces that
output exactly. -/
theorem c1_regen_idempotent (fs : FS) (l : List Annot) (store out : List JDict)
    (h : regenStoreFile fs store = some out) :
    regenHashes fs (regenHashes fs l) = regenHashes fs l ∧
    regenStoreFile fs out = some out := by
  refine ⟨regenHashes_twice fs l, ?_⟩
  unfold regenStoreFile at h ⊢
  cases hl : loadStore store with
  | none => rw [hl] at h; cases h
  | some l0 =>
    rw [hl] at h
    have hout : saveStore (regenHashes fs l0) = out := by
      injection h
    rw [← hout]
    simp [loadStore_saveStore, regenHashes_twice]

/-- C5: when check meets a record whose file does not exist it emits the
missing-file warning and goes on to process the remaining records exactly
as it would have; no exception aborts the loop. -/
theorem c5_check_missing_continues (fs : FS) (a : Annot) (rest : List Annot)
    (h : fs a.file_name = none) :
    checkAnnots fs (a :: rest) = missingMsg a.file_name :: checkAnnots fs rest := by
  simp [checkAnnots, h]

theorem c5_witness :
    ((fun _ => none : FS) "ghost.txt" = none) ∧
    checkAnnots (fun _ => none) [⟨1, 2, "ghost.txt", "X"⟩] =
      missingMsg "ghost.txt" :: checkAnnots (fun _ => none) [] :=
  ⟨rfl, c5_check_missing_continues (fun _ => none) ⟨1, 2, "ghost.txt", "X"⟩ [] rfl⟩

/-- C8: average_annotation_length is 0 on the empty store, and otherwise
the arithmetic mean of the spans end_line - start_line + 1; the divisor
is the record count and is nonzero, so no division by zero happens. -/
theorem c8_average (l : List Annot) (h : l ≠ []) :
    averageAnnotLength [] = 0 ∧
    ((l.length : ℚ) ≠ 0 ∧
      averageAnnotLength l =
        (l.map (fun a => ((a.end_line : ℚ) - (a.start_line : ℚ) + 1))).sum
          / (l.length : ℚ)) := by
  refine ⟨rfl, ?_, ?_⟩
  · have hn : l.length ≠ 0 := by simpa [List.length_eq_zero] using h
    exact_mod_cast hn
  · unfold averageAnnotLength
    rw [if_neg h, castSpanSum]

theorem c8_witness :
    ([(⟨1, 3, "x", "h"⟩ : Annot)] ≠ []) ∧
    (averageAnnotLength [] = 0 ∧
     ((([(⟨1, 3, "x", "h"⟩ : Annot)].length : ℚ) ≠ 0) ∧
      averageAnnotLength [⟨1, 3, "x", "h"⟩] =
        ([(⟨1, 3, "x", "h"⟩ : Annot)].map
            (fun a => ((a.end_line : ℚ) - (a.start_line : ℚ) + 1))).sum
          / (([(⟨1, 3, "x", "h"⟩ : Annot)].length : ℚ)))) :=
  ⟨by decide, c8_average [⟨1, 3, "x", "h"⟩] (by decide)⟩

/-- C10: evaluating the module raises NameError at the decorated class,
because the decorator name dataclass is not among the names bound by the
imports (only asdict is imported from dataclasses). -/
theorem c10_module_name_error :
    runModule moduleStmts []
      = Except.error "NameError: name dataclass is not defined" ∧
    "dataclass" ∉ ["os", "sys", "argparse", "json", "hashlib", "asdict", "List"] :=
  ⟨rfl, by decide⟩

theorem c1_witness :
    regenStoreFile (fun _ => none) (saveStore [⟨1, 2, "a.txt", "X"⟩])
      = some (saveStore [⟨1, 2, "a.txt", "X"⟩]) ∧
    (regenHashes (fun _ => none)
        (regenHashes (fun _ => none) [(⟨1, 2, "a.txt", "X"⟩ : Annot)])
        = regenHashes (fun _ => none) [⟨1, 2, "a.txt", "X"⟩] ∧
      regenStoreFile (fun _ => none) (saveStore [⟨1, 2, "a.txt", "X"⟩])
        = some (saveStore [⟨1, 2, "a.txt", "X"⟩])) :=
  ⟨rfl, c1_regen_idempotent (fun _ => none) [⟨1, 2, "a.txt", "X"⟩]
    (saveStore [⟨1, 2, "a.txt", "X"⟩]) (saveStore [⟨1, 2, "a.txt", "X"⟩]) rfl⟩

/-- C2 counterexample: the digest value the spec scenario states is wrong.
The MD5 hex digest of "foo\nbar\n" is not f0ef7081e1539ac00ef5b761b4fb01b3,
and regen on the scenario store does not produce that value. -/
theorem c2_counterexample :
    md5Hex (utf8Bytes "foo\nbar\n") ≠ "f0ef7081e1539ac00ef5b761b4fb01b3" ∧
    regenHashes fsDemo [⟨1, 2, "a.txt", "X"⟩]
      ≠ [⟨1, 2, "a.txt", "f0ef7081e1539ac00ef5b761b4fb01b3"⟩] := by
  constructor
  · decide
  · decide

/-- C2 as amended: regen on the store holding the single record over lines
1-2 of a.txt (content "foo\nbar\n") sets line_hash to the MD5 hex digest of
"foo\nbar\n", which equals f47c75614087a8dd938ba4acff252494 (computed by
the embedded MD5 algorithm), and check on the regenerated store against
the unchanged file reports nothing. -/
theorem c2_regen_and_check :
    regenHashes fsDemo [⟨1, 2, "a.txt", "X"⟩]
      = [⟨1, 2, "a.txt", "f47c75614087a8dd938ba4acff252494"⟩] ∧
    md5Hex (utf8Bytes "foo\nbar\n") = "f47c75614087a8dd938ba4acff252494" ∧
    checkAnnots fsDemo (regenHashes fsDemo [⟨1, 2, "a.txt", "X"⟩]) = [] := by
  refine ⟨by decide, by decide, by decide⟩

/-- C4: regen keeps the store's length; it persists the whole updated
store; a record whose file is missing is returned untouched and its
missing-file warning appears in the output; a record whose file exists is
returned with only line_hash overwritten, recomputed from the file. -/
theorem c4_regen_frame (fs : FS) (l : List Annot) (i : Nat) (h : i < l.length) :
    (regenHashes fs l).length = l.length ∧
    regenStoreFile fs (saveStore l) = some (saveStore (regenHashes fs l)) ∧
    (fs ((l.getD i annZero).file_name) = none →
      (regenHashes fs l).getD i annZero = l.getD i annZero ∧
      missingMsg ((l.getD i annZero).file_name) ∈ regenOutput fs l) ∧
    (∀ c, fs ((l.getD i annZero).file_name) = some c →
      (regenHashes fs l).getD i annZero =
        { l.getD i annZero with
            line_hash := hash_range c ((l.getD i annZero).start_line)
              ((l.getD i annZero).end_line) }) := by
  refine ⟨by simp [regenHashes], by simp [regenStoreFile, loadStore_saveStore], ?_, ?_⟩
  · intro hnone
    constructor
    · unfold regenHashes
      rw [getD_map _ _ _ h, regenStep_none fs _ hnone]
    · have hmem : l.getD i annZero ∈ l := by
        rw [List.getD_eq_getElem _ _ h]
        exact List.getElem_mem h
      unfold regenOutput
      rw [List.mem_flatMap]
      exact ⟨l.getD i annZero, hmem, by rw [regenStep_none fs _ hnone]; simp⟩
  · intro c hc
    unfold regenHashes
    rw [getD_map _ _ _ h, regenStep_some fs _ c hc]

theorem c4_witness :
    (0 < ([(⟨1, 2, "a.txt", "X"⟩ : Annot)] : List Annot).length) ∧
    ((regenHashes (fun _ => none) [⟨1, 2, "a.txt", "X"⟩]).length
        = ([(⟨1, 2, "a.txt", "X"⟩ : Annot)] : List Annot).length ∧
      regenStoreFile (fun _ => none) (saveStore [⟨1, 2, "a.txt", "X"⟩])
        = some (saveStore (regenHashes (fun _ => none) [⟨1, 2, "a.txt", "X"⟩])) ∧
      ((none : Option String) = none →
        (regenHashes (fun _ => none) [⟨1, 2, "a.txt", "X"⟩]).getD 0 annZero
            = (⟨1, 2, "a.txt", "X"⟩ : Annot) ∧
        missingMsg "a.txt" ∈ regenOutput (fun _ => none) [⟨1, 2, "a.txt", "X"⟩]) ∧
      (∀ c, (none : Option String) = some c →
        (regenHashes (fun _ => none) [⟨1, 2, "a.txt", "X"⟩]).getD 0 annZero
            = { (⟨1, 2, "a.txt", "X"⟩ : Annot) with line_hash := hash_range c 1 2 })) :=
  ⟨by decide, c4_regen_frame (fun _ => none) [⟨1, 2, "a.txt", "X"⟩] 0 (by decide)⟩

/-! Slicing lemmas used by C6, C7 and C9. -/

theorem pySlice_nonneg {α : Type} (l : List α) (a b : Int)
    (ha : 0 ≤ a) (hb : 0 ≤ b) :
    pySlice l a b = (l.drop a.toNat).take (b.toNat - a.toNat) := by
  unfold pySlice pyIndex
  rw [if_neg (show ¬a < 0 by omega), if_neg (show ¬b < 0 by omega)]
  have htake : l.take (min b.toNat l.length) = l.take b.toNat := by
    rw [← List.take_take, List.take_length]
  rw [htake, List.drop_take]
  by_cases hle : a.toNat ≤ l.length
  · rw [Nat.min_eq_left hle]
  · have h1 : min a.toNat l.length = l.length := Nat.min_eq_right (by omega)
    rw [h1, List.drop_length, List.drop_eq_nil_of_le (by omega)]
    simp

theorem sliceLines_eq (content : String) (s e : Int) (h1 : 1 ≤ s) (h2 : 0 ≤ e) :
    sliceLines content s e
      = ((readlines content).drop (s.toNat - 1)).take (e.toNat - (s.toNat - 1)) := by
  unfold sliceLines
  rw [pySlice_nonneg _ _ _ (by omega) h2]
  have h3 : (s - 1).toNat = s.toNat - 1 := by omega
  rw [h3]

theorem natToLeBytes_length (k : Nat) : ∀ v, (natToLeBytes k v).length = k := by
  induction k with
  | zero => intro v; rfl
  | succ n ih => intro v; simp [natToLeBytes, ih]

theorem md5Bytes_length (msg : List Nat) : (md5Bytes msg).length = 16 := by
  simp [md5Bytes, natToLeBytes_length]

theorem bytesToHex_length (bs : List Nat) : (bytesToHex bs).length = 2 * bs.length := by
  show (bs.flatMap byteToHex).length = 2 * bs.length
  induction bs with
  | nil => rfl
  | cons b t ih =>
    simp only [List.flatMap_cons, List.length_append, ih, byteToHex]
    simp
    omega

theorem md5Hex_length (msg : List Nat) : (md5Hex msg).length = 32 := by
  unfold md5Hex
  rw [bytesToHex_length, md5Bytes_length]

theorem getD_mem_hex (i : Nat) : hexDigits[i]?.getD '0' ∈ hexDigits := by
  cases h : hexDigits[i]? with
  | none => decide
  | some c =>
    show c ∈ hexDigits
    exact List.getElem?_mem h

theorem md5Hex_mem (msg : List Nat) : ∀ c ∈ (md5Hex msg).data, c ∈ hexDigits := by
  intro c hc
  have hc2 : c ∈ (md5Bytes msg).flatMap byteToHex := hc
  rw [List.mem_flatMap] at hc2
  obtain ⟨b, _, hb⟩ := hc2
  simp [byteToHex] at hb
  rcases hb with h | h <;> rw [h]
  · exact getD_mem_hex (b / 16)
  · exact getD_mem_hex (b % 16)

/-- C6: the digest over an inclusive 1-based range is the MD5 hash,
rendered as lowercase hexadecimal (32 characters drawn from hexDigits),
of the concatenation of the raw line texts of that range, terminators
included, with no normalisation. -/
theorem c6_hash_definition (content : String) (s e : Int)
    (h1 : 1 ≤ s) (h2 : s ≤ e) :
    hash_range content s e
      = md5Hex (utf8Bytes (String.join
          (((readlines content).drop (s.toNat - 1)).take
            (e.toNat - (s.toNat - 1))))) ∧
    (hash_range content s e).length = 32 ∧
    ∀ c ∈ (hash_range content s e).data, c ∈ hexDigits := by
  refine ⟨?_, md5Hex_length _, md5Hex_mem _⟩
  unfold hash_range
  rw [sliceLines_eq content s e h1 (by omega)]

theorem c6_witness :
    ((1 : Int) ≤ 1 ∧ (1 : Int) ≤ 2) ∧
    (hash_range "foo\nbar\n" 1 2
        = md5Hex (utf8Bytes (String.join
            (((readlines "foo\nbar\n").drop ((1 : Int).toNat - 1)).take
              ((2 : Int).toNat - ((1 : Int).toNat - 1))))) ∧
      (hash_range "foo\nbar\n" 1 2).length = 32 ∧
      ∀ c ∈ (hash_range "foo\nbar\n" 1 2).data, c ∈ hexDigits) :=
  ⟨⟨by decide, by decide⟩, c6_hash_definition "foo\nbar\n" 1 2 (by decide) (by decide)⟩

/-- C7: when end_line exceeds the file's line count the slice silently
shortens to the lines that exist from start_line on, and the digest is
computed over that shortened slice; when start_line also exceeds the line
count, the slice is empty. The function is total, so nothing fails. -/
theorem c7_out_of_range (content : String) (s e : Int) (h1 : 1 ≤ s)
    (h2 : ((readlines content).length : Int) < e) :
    sliceLines content s e = (readlines content).drop (s.toNat - 1) ∧
    hash_range content s e
      = md5Hex (utf8Bytes (String.join ((readlines content).drop (s.toNat - 1)))) ∧
    ((readlines content).length < s.toNat → sliceLines content s e = []) := by
  have hs : sliceLines content s e = (readlines content).drop (s.toNat - 1) := by
    rw [sliceLines_eq content s e h1 (by omega)]
    apply List.take_of_length_le
    rw [List.length_drop]
    omega
  refine ⟨hs, ?_, ?_⟩
  · unfold hash_range
    rw [hs]
  · intro hlt
    rw [hs]
    exact List.drop_eq_nil_of_le (by omega)

theorem c7_witness :
    ((1 : Int) ≤ 1 ∧ ((readlines "foo\n").length : Int) < 5) ∧
    (sliceLines "foo\n" 1 5 = (readlines "foo\n").drop ((1 : Int).toNat - 1) ∧
      hash_range "foo\n" 1 5
        = md5Hex (utf8Bytes (String.join
            ((readlines "foo\n").drop ((1 : Int).toNat - 1)))) ∧
      ((readlines "foo\n").length < (1 : Int).toNat →
        sliceLines "foo\n" 1 5 = [])) :=
  ⟨⟨by decide, by decide⟩, c7_out_of_range "foo\n" 1 5 (by decide) (by decide)⟩

theorem drop_pred_getLastD (l : List String) : ∀ d : String, l ≠ [] →
    l.drop (l.length - 1) = [l.getLastD d] := by
  induction l with
  | nil => intro d h; cases h rfl
  | cons a t ih =>
    intro d _
    by_cases ht : t = []
    · subst ht; rfl
    · have hlen : (a :: t).length - 1 = t.length := by simp
      rw [hlen, List.getLastD_cons]
      obtain ⟨b, t2, rfl⟩ : ∃ b t2, t = b :: t2 := by
        cases t with
        | nil => cases ht rfl
        | cons b t2 => exact ⟨b, t2, rfl⟩
      rw [show (b :: t2).length = t2.length + 1 from rfl, List.drop_succ_cons]
      have hih := ih a ht
      simpa using hih

/-- C9: with start_line = 0 the slice start index is -1, which Python
interprets from the end of the list: on a nonempty file with end_line at
least the line count, exactly the last line is selected and hashed. -/
theorem c9_negative_index (content : String) (e : Int)
    (h1 : readlines content ≠ [])
    (h2 : ((readlines content).length : Int) ≤ e) :
    sliceLines content 0 e = [(readlines content).getLastD ""] ∧
    hash_range content 0 e = md5Hex (utf8Bytes ((readlines content).getLastD "")) := by
  have hn : 0 < (readlines content).length := List.length_pos.mpr h1
  have hslice : sliceLines content 0 e = [(readlines content).getLastD ""] := by
    unfold sliceLines pySlice pyIndex
    rw [if_pos (show (0 : Int) - 1 < 0 by norm_num),
      if_neg (show ¬e < 0 by omega)]
    have hb : min e.toNat (readlines content).length = (readlines content).length :=
      Nat.min_eq_right (by omega)
    rw [hb, List.take_length]
    have ha : (max (((readlines content).length : Int) + (0 - 1)) 0).toNat
        = (readlines content).length - 1 := by
      rw [max_eq_left (by omega)]
      omega
    rw [ha]
    exact drop_pred_getLastD _ "" h1
  refine ⟨hslice, ?_⟩
  unfold hash_range
  rw [hslice]
  have hj : String.join [(readlines content).getLastD ""]
      = (readlines content).getLastD "" := by
    cases h : (readlines content).getLastD ""
    rfl
  rw [hj]

theorem c9_witness :
    (readlines "foo\nbar\n" ≠ [] ∧
      ((readlines "foo\nbar\n").length : Int) ≤ 2) ∧
    (sliceLines "foo\nbar\n" 0 2 = [(readlines "foo\nbar\n").getLastD ""] ∧
      hash_range "foo\nbar\n" 0 2
        = md5Hex (utf8Bytes ((readlines "foo\nbar\n").getLastD ""))) :=
  ⟨⟨by decide, by decide⟩, c9_negative_index "foo\nbar\n" 2 (by decide) (by decide)⟩
